import Mathlib

/-!
# Verification of the AdventureWorks analytics dashboard core

Shallow embedding of the analytics core of `comprehensive_analytics_dashboard.py`
(and the overlapping logic of `create_insights_charts.py`): the join/enrichment
step, derived-field computation, aggregation, churn classification, linear trend
fitting, quantile segmentation, correlation, year-over-year growth and the
recommendation synthesizer.

Numeric columns are modelled over `ℚ`.  Where the pandas/NumPy special values
(NaN, ±inf) are the point of a claim, the inductive type `PValue` models a
pandas float cell exactly (a rational, NaN, or a signed infinity) together with
the IEEE-754 arithmetic pandas uses elementwise.
-/

/-- A pandas float cell: NaN (also the missing-value marker), ±infinity, or a
finite value (modelled as a rational).  `nan` is what pandas treats as missing
(skipped by `mean`); the infinities are ordinary numbers to pandas. -/
inductive PValue where
  | nan : PValue
  | inf : PValue
  | neginf : PValue
  | num : ℚ → PValue
  deriving DecidableEq, Repr

namespace PValue

/-- IEEE-754 subtraction as performed by a pandas column subtraction
(`Sales Amount - Total Product Cost`). -/
def sub : PValue → PValue → PValue
  | nan, _ => nan
  | _, nan => nan
  | inf, inf => nan
  | inf, _ => inf
  | neginf, neginf => nan
  | neginf, _ => neginf
  | num _, inf => neginf
  | num _, neginf => inf
  | num a, num b => num (a - b)

/-- IEEE-754 division as performed by a pandas column division: a nonzero
finite value divided by zero is a signed infinity, `0/0` is NaN.  (NumPy emits
a warning for these, which the script suppresses with
`warnings.filterwarnings`.) -/
def div : PValue → PValue → PValue
  | nan, _ => nan
  | _, nan => nan
  | inf, inf => nan
  | inf, neginf => nan
  | neginf, inf => nan
  | neginf, neginf => nan
  | inf, num b => if 0 ≤ b then inf else neginf
  | neginf, num b => if 0 ≤ b then neginf else inf
  | num _, inf => num 0
  | num _, neginf => num 0
  | num a, num b =>
      if b = 0 then (if a = 0 then nan else if 0 < a then inf else neginf)
      else num (a / b)

/-- IEEE-754 multiplication (used for the `× 100` scaling of the margin). -/
def mul : PValue → PValue → PValue
  | nan, _ => nan
  | _, nan => nan
  | inf, inf => inf
  | inf, neginf => neginf
  | neginf, inf => neginf
  | neginf, neginf => inf
  | inf, num b => if b = 0 then nan else if 0 < b then inf else neginf
  | num a, inf => if a = 0 then nan else if 0 < a then inf else neginf
  | neginf, num b => if b = 0 then nan else if 0 < b then neginf else inf
  | num a, neginf => if a = 0 then nan else if 0 < a then neginf else inf
  | num a, num b => num (a * b)

/-- IEEE-754 addition (used by the running sum inside a pandas `mean`). -/
def add : PValue → PValue → PValue
  | nan, _ => nan
  | _, nan => nan
  | inf, neginf => nan
  | neginf, inf => nan
  | inf, _ => inf
  | _, inf => inf
  | neginf, _ => neginf
  | _, neginf => neginf
  | num a, num b => num (a + b)

/-- Is this cell NaN (pandas' missing-value marker)? -/
def isNan : PValue → Bool
  | nan => true
  | _ => false

end PValue

/-- `Series.mean` with pandas' default `skipna=True`: NaN cells are dropped,
the remaining cells (including infinities) are summed and divided by their
count; an all-NaN or empty column yields NaN. -/
def seriesMean (l : List PValue) : PValue :=
  let xs := l.filter (fun v => !v.isNan)
  if xs.isEmpty then PValue.nan
  else (xs.foldl PValue.add (PValue.num 0)).div (PValue.num (xs.length : ℚ))

/-- `comprehensive_data['Profit']`: `Sales Amount - Total Product Cost`
(line 60 of `comprehensive_analytics_dashboard.py`, line 69 of
`create_insights_charts.py`). -/
def profitCell (salesAmount totalProductCost : PValue) : PValue :=
  salesAmount.sub totalProductCost

/-- `comprehensive_data['Profit_Margin']`:
`(Profit / Sales Amount) * 100` (line 61 of
`comprehensive_analytics_dashboard.py`, line 70 of
`create_insights_charts.py`). -/
def profitMarginCell (salesAmount totalProductCost : PValue) : PValue :=
  ((profitCell salesAmount totalProductCost).div salesAmount).mul (PValue.num 100)

/-- `churn_risk` (lines 678-688 of `comprehensive_analytics_dashboard.py`):
classify a customer by days since last purchase. -/
def churn_risk (days : ℤ) : String :=
  if days ≤ 30 then "Active"
  else if days ≤ 90 then "At Risk"
  else if days ≤ 180 then "High Risk"
  else "Churned"

/-- C5: the churn-risk classification is a pure total function of
days-since-last-purchase with less-than-or-equal threshold semantics: for every
integer `days` it returns `Active` iff `days ≤ 30`, `At Risk` iff
`30 < days ≤ 90`, `High Risk` iff `90 < days ≤ 180` and `Churned` iff
`days > 180`; in particular 30 ↦ Active, 31 ↦ At Risk, 90 ↦ At Risk,
91 ↦ High Risk, 181 ↦ Churned. -/
theorem churn_risk_boundaries :
    (∀ days : ℤ, (churn_risk days = "Active" ↔ days ≤ 30)
      ∧ (churn_risk days = "At Risk" ↔ 30 < days ∧ days ≤ 90)
      ∧ (churn_risk days = "High Risk" ↔ 90 < days ∧ days ≤ 180)
      ∧ (churn_risk days = "Churned" ↔ 180 < days))
    ∧ churn_risk 30 = "Active" ∧ churn_risk 31 = "At Risk"
    ∧ churn_risk 90 = "At Risk" ∧ churn_risk 91 = "High Risk"
    ∧ churn_risk 181 = "Churned" := by
  refine ⟨fun days => ?_, by decide, by decide, by decide, by decide, by decide⟩
  unfold churn_risk
  split_ifs with h1 h2 h3 <;>
    refine ⟨?_, ?_, ?_, ?_⟩ <;> simp_all <;> omega

/-!
## Join/enrichment engine

`load_and_prepare_data` (lines 44-56) builds the enriched dataset as a chain of
six pandas left-outer merges of the fact table `Sales_data` against the
dimension tables.  A pandas left merge emits, for each left row in order, one
output row per matching right row, or a single row with null right columns when
there is no match.
-/

/-- One pandas left-outer merge `left.merge(right, left_on=lk, right_on=rk,
how='left')`, keeping only the row multiset structure: each output row is the
left row paired with the matched right row (or `none` when unmatched). -/
def leftMerge {α β K : Type} [DecidableEq K] (left : List α) (right : List β)
    (lk : α → K) (rk : β → K) : List (α × Option β) :=
  left.flatMap fun l =>
    match right.filter (fun r => decide (rk r = lk l)) with
    | [] => [(l, none)]
    | ms => ms.map fun r => (l, some r)

/-- Row of the `Sales_data` fact table (key columns plus the numeric columns
the derived fields use). -/
structure SalesRow where
  orderDateKey : ℤ
  salesTerritoryKey : ℤ
  productKey : ℤ
  customerKey : ℤ
  salesOrderLineKey : ℤ
  resellerKey : ℤ
  salesAmount : ℚ
  totalProductCost : ℚ
  deriving DecidableEq, Repr

/-- Row of the `Date_data` dimension table. -/
structure DateRow where
  dateKey : ℤ
  fiscalYear : ℤ
  monthName : String
  deriving DecidableEq, Repr

/-- Row of the `Sales Territory_data` dimension table. -/
structure TerritoryRow where
  salesTerritoryKey : ℤ
  country : String
  deriving DecidableEq, Repr

/-- Row of the `Product_data` dimension table. -/
structure ProductRow where
  productKey : ℤ
  category : String
  product : String
  deriving DecidableEq, Repr

/-- Row of the `Customer_data` dimension table. -/
structure CustomerRow where
  customerKey : ℤ
  city : String
  deriving DecidableEq, Repr

/-- Row of the `Sales Order_data` dimension table. -/
structure OrderRow where
  salesOrderLineKey : ℤ
  channel : String
  deriving DecidableEq, Repr

/-- Row of the `Reseller_data` dimension table. -/
structure ResellerRow where
  resellerKey : ℤ
  businessType : String
  deriving DecidableEq, Repr

/-- The chain of six left merges of `load_and_prepare_data` (lines 44-56):
`Sales_data` against `Date_data` (on `OrderDateKey = DateKey`), then
`Sales Territory_data`, `Product_data`, `Customer_data`, `Sales Order_data`
and `Reseller_data`, each on the shared key column. -/
def comprehensiveMerge (sales : List SalesRow) (dates : List DateRow)
    (terr : List TerritoryRow) (prods : List ProductRow)
    (custs : List CustomerRow) (orders : List OrderRow)
    (resellers : List ResellerRow) :
    List ((((((SalesRow × Option DateRow) × Option TerritoryRow) × Option ProductRow)
      × Option CustomerRow) × Option OrderRow) × Option ResellerRow) :=
  leftMerge (leftMerge (leftMerge (leftMerge (leftMerge
    (leftMerge sales dates (fun s => s.orderDateKey) (fun d => d.dateKey))
    terr (fun p => p.1.salesTerritoryKey) (fun t => t.salesTerritoryKey))
    prods (fun p => p.1.1.productKey) (fun t => t.productKey))
    custs (fun p => p.1.1.1.customerKey) (fun t => t.customerKey))
    orders (fun p => p.1.1.1.1.salesOrderLineKey) (fun t => t.salesOrderLineKey))
    resellers (fun p => p.1.1.1.1.1.resellerKey) (fun t => t.resellerKey)

/-- Length of a left merge: each left row fans out to one output row per
match, or one null-padded row if unmatched. -/
lemma leftMerge_length {α β K : Type} [DecidableEq K] (left : List α)
    (right : List β) (lk : α → K) (rk : β → K) :
    (leftMerge left right lk rk).length =
      (left.map fun l =>
        max 1 (right.filter (fun r => decide (rk r = lk l))).length).sum := by
  induction left with
  | nil => rfl
  | cons l ls ih =>
      have hstep : (leftMerge (l :: ls) right lk rk).length =
          (match right.filter (fun r => decide (rk r = lk l)) with
            | [] => [(l, (none : Option β))]
            | ms => ms.map fun r => (l, some r)).length
            + (leftMerge ls right lk rk).length := by
        simp [leftMerge, List.flatMap_cons]
      rw [hstep, ih, List.map_cons, List.sum_cons]
      congr 1
      cases h : right.filter (fun r => decide (rk r = lk l)) with
      | nil => simp [h]
      | cons m ms => simp [h]

/-- A `Nodup` key column matches each key at most once. -/
lemma filter_key_length_le_one {β K : Type} [DecidableEq K] (right : List β)
    (rk : β → K) (h : (right.map rk).Nodup) (k : K) :
    (right.filter (fun r => decide (rk r = k))).length ≤ 1 := by
  induction right with
  | nil => simp
  | cons r rs ih =>
      simp only [List.map_cons, List.nodup_cons] at h
      by_cases hrk : rk r = k
      · have hnil : rs.filter (fun x => decide (rk x = k)) = [] := by
          rw [List.filter_eq_nil_iff]
          intro a ha hcontra
          exact h.1 (hrk ▸ (List.mem_map.mpr ⟨a, ha, by simpa using hcontra⟩))
        simp [List.filter_cons, hrk, hnil]
      · simpa [List.filter_cons, hrk] using ih h.2

/-- With an at-most-once match for every left row, a left merge preserves the
left row count. -/
lemma leftMerge_length_of_unique {α β K : Type} [DecidableEq K] (left : List α)
    (right : List β) (lk : α → K) (rk : β → K)
    (h : (right.map rk).Nodup) :
    (leftMerge left right lk rk).length = left.length := by
  rw [leftMerge_length]
  induction left with
  | nil => rfl
  | cons l ls ih =>
      have h1 := filter_key_length_le_one right rk h (lk l)
      simp only [List.map_cons, List.sum_cons, List.length_cons]
      omega

/-- Any list is at most as long as the sum of `max 1 (f l)` over its
elements. -/
lemma sum_map_max_one_ge {α : Type} (left : List α) (f : α → ℕ) :
    left.length ≤ (left.map fun l => max 1 (f l)).sum := by
  induction left with
  | nil => simp
  | cons l ls ih =>
      simp only [List.map_cons, List.sum_cons, List.length_cons]
      omega

/-- If some element contributes at least 2, the `max 1` sum strictly exceeds
the length. -/
lemma sum_map_max_one_lt {α : Type} (left : List α) (f : α → ℕ) (l0 : α)
    (h2 : 2 ≤ f l0) :
    l0 ∈ left → left.length < (left.map fun l => max 1 (f l)).sum := by
  induction left with
  | nil => intro h; simp at h
  | cons l ls ih =>
      intro hl0
      rcases List.mem_cons.mp hl0 with rfl | hmem
      · have := sum_map_max_one_ge ls f
        simp only [List.map_cons, List.sum_cons, List.length_cons]
        omega
      · have := ih hmem
        simp only [List.map_cons, List.sum_cons, List.length_cons]
        omega

/-- C1: for every fact table and every set of dimension tables in which each
dimension table's join key column is duplicate-free, the enriched record set
produced by the chain of six left-outer merges of `load_and_prepare_data`
has exactly as many rows as the fact table: no fact row is lost and none is
duplicated. -/
theorem comprehensiveMerge_preserves_cardinality
    (sales : List SalesRow) (dates : List DateRow) (terr : List TerritoryRow)
    (prods : List ProductRow) (custs : List CustomerRow)
    (orders : List OrderRow) (resellers : List ResellerRow)
    (hdates : (dates.map DateRow.dateKey).Nodup)
    (hterr : (terr.map TerritoryRow.salesTerritoryKey).Nodup)
    (hprods : (prods.map ProductRow.productKey).Nodup)
    (hcusts : (custs.map CustomerRow.customerKey).Nodup)
    (horders : (orders.map OrderRow.salesOrderLineKey).Nodup)
    (hresellers : (resellers.map ResellerRow.resellerKey).Nodup) :
    (comprehensiveMerge sales dates terr prods custs orders resellers).length
      = sales.length := by
  unfold comprehensiveMerge
  rw [leftMerge_length_of_unique _ _ _ _ hresellers,
      leftMerge_length_of_unique _ _ _ _ horders,
      leftMerge_length_of_unique _ _ _ _ hcusts,
      leftMerge_length_of_unique _ _ _ _ hprods,
      leftMerge_length_of_unique _ _ _ _ hterr,
      leftMerge_length_of_unique _ _ _ _ hdates]

/-- C1 witness: a 2-row fact table with unique one-row (or two-row) dimension
tables keeps exactly 2 enriched rows. -/
theorem comprehensiveMerge_preserves_cardinality_witness :
    (comprehensiveMerge
      [⟨1, 1, 1, 1, 1, 1, 100, 60⟩, ⟨1, 1, 1, 1, 1, 2, 200, 100⟩]
      [⟨1, 2018, "July"⟩] [⟨1, "Australia"⟩] [⟨1, "Bikes", "Road-150"⟩]
      [⟨1, "Seattle"⟩] [⟨1, "Internet"⟩]
      [⟨1, "Retail"⟩, ⟨2, "Online"⟩]).length = 2 :=
  comprehensiveMerge_preserves_cardinality _ _ _ _ _ _ _
    (by decide) (by decide) (by decide) (by decide) (by decide) (by decide)

/-- C4 counterexample: a dimension table with a duplicated join key does not
make the join step fail; the merge chain completes and silently fans out — one
fact row joined against two `Date_data` rows sharing `DateKey = 1` yields two
enriched rows, although the dimension key column is not unique. -/
theorem comprehensiveMerge_duplicate_key_no_error :
    ¬ (([⟨1, 2018, "July"⟩, ⟨1, 2019, "August"⟩] : List DateRow).map
        DateRow.dateKey).Nodup
    ∧ (comprehensiveMerge [⟨1, 1, 1, 1, 1, 1, 100, 60⟩]
        [⟨1, 2018, "July"⟩, ⟨1, 2019, "August"⟩] [] [] [] [] []).length = 2 :=
  ⟨by decide, by rfl⟩

/-- C4 amended: the join step performs no uniqueness validation and raises no
error; a left merge always returns a result at least as long as the fact
table, and whenever some fact row matches a duplicated dimension key (two or
more matching dimension rows) the result is strictly longer — a silent
fan-out, not an `AmbiguousJoinKey` failure. -/
theorem leftMerge_silent_fanout {α β K : Type} [DecidableEq K]
    (left : List α) (right : List β) (lk : α → K) (rk : β → K) :
    left.length ≤ (leftMerge left right lk rk).length
    ∧ ((∃ l ∈ left, 2 ≤ (right.filter (fun r => decide (rk r = lk l))).length) →
        left.length < (leftMerge left right lk rk).length) := by
  rw [leftMerge_length]
  refine ⟨sum_map_max_one_ge left _, ?_⟩
  rintro ⟨l0, hl0, h2⟩
  exact sum_map_max_one_lt left _ l0 h2 hl0

/-- C4 amended witness: one left row against two right rows with the same key
gives a strictly longer (2-row) result. -/
theorem leftMerge_silent_fanout_witness :
    (leftMerge [(0 : ℤ)] [(0 : ℤ), 0] id id).length = 2
    ∧ 1 < (leftMerge [(0 : ℤ)] [(0 : ℤ), 0] id id).length :=
  ⟨by rfl, (leftMerge_silent_fanout [(0 : ℤ)] [(0 : ℤ), 0] id id).2
    ⟨0, by decide, by decide⟩⟩

/-!
## Derived profit-margin field and its zero-division behaviour (C3)
and margin aggregation (C2)
-/

/-- C3 counterexample: a record with `Sales Amount = 0` and
`Total Product Cost = 60` gets `Profit_Margin = -inf`, not a missing value
(NaN), and that infinity propagates into a downstream mean as an infinite
number rather than being skipped as missing. -/
theorem profitMargin_zero_sales_infinite :
    profitMarginCell (PValue.num 0) (PValue.num 60) = PValue.neginf
    ∧ (profitMarginCell (PValue.num 0) (PValue.num 60)).isNan = false
    ∧ seriesMean [PValue.num 40, profitMarginCell (PValue.num 0) (PValue.num 60)]
        = PValue.neginf := by
  norm_num [profitMarginCell, profitCell, PValue.sub, PValue.div, PValue.mul,
    seriesMean, PValue.isNan, PValue.add, List.filter]

/-- C3 amended: for nonzero `Sales Amount` the margin is the finite value
`Profit / Sales Amount × 100` and no error is raised; at `Sales Amount = 0`
the computation still does not raise, but the cell is NaN (missing) only when
the cost is also 0 (`0/0`); with a nonzero cost it is a signed infinity, and
an infinity — unlike NaN — propagates into a downstream `mean` as an infinite
number instead of being skipped. -/
theorem profitMargin_semantics :
    (∀ s c : ℚ, s ≠ 0 →
      profitMarginCell (PValue.num s) (PValue.num c)
        = PValue.num ((s - c) / s * 100))
    ∧ profitMarginCell (PValue.num 0) (PValue.num 0) = PValue.nan
    ∧ (∀ c : ℚ, 0 < c →
        profitMarginCell (PValue.num 0) (PValue.num c) = PValue.neginf)
    ∧ (∀ c : ℚ, c < 0 →
        profitMarginCell (PValue.num 0) (PValue.num c) = PValue.inf)
    ∧ (∀ a : ℚ, seriesMean [PValue.num a, PValue.nan] = PValue.num a)
    ∧ (∀ a : ℚ, seriesMean [PValue.num a, PValue.neginf] = PValue.neginf) := by
  refine ⟨?_, ?_, ?_, ?_, ?_, ?_⟩
  · intro s c hs
    norm_num [profitMarginCell, profitCell, PValue.sub, PValue.div, PValue.mul, hs]
  · norm_num [profitMarginCell, profitCell, PValue.sub, PValue.div, PValue.mul]
  · intro c hc
    have h1 : ¬ c = 0 := ne_of_gt hc
    have h2 : ¬ c < 0 := asymm hc
    norm_num [profitMarginCell, profitCell, PValue.sub, PValue.div, PValue.mul,
      h1, h2]
  · intro c hc
    have h1 : ¬ c = 0 := ne_of_lt hc
    norm_num [profitMarginCell, profitCell, PValue.sub, PValue.div, PValue.mul,
      h1, hc]
  · intro a
    norm_num [seriesMean, PValue.isNan, PValue.add, PValue.div, List.filter]
  · intro a
    norm_num [seriesMean, PValue.isNan, PValue.add, PValue.div, List.filter]

/-- C3 amended witness: a concrete nonzero-revenue record gets the finite
ratio value. -/
theorem profitMargin_semantics_witness :
    profitMarginCell (PValue.num 200) (PValue.num 100)
      = PValue.num ((200 - 100) / 200 * 100) :=
  profitMargin_semantics.1 200 100 (by norm_num)

/-- The columns of the enriched dataset consumed by the margin aggregations:
`Category` (joined from `Product_data`), `Sales Amount` and
`Total Product Cost` (fact table).  Cells are finite here; the NaN/inf hazards
of the per-row margin are treated with `PValue` above. -/
structure MarginRow where
  category : String
  salesAmount : ℚ
  totalProductCost : ℚ
  deriving DecidableEq, Repr

/-- Per-row `Profit` column (line 60). -/
def MarginRow.profit (r : MarginRow) : ℚ := r.salesAmount - r.totalProductCost

/-- Per-row `Profit_Margin` column (line 61). -/
def MarginRow.profitMargin (r : MarginRow) : ℚ :=
  r.profit / r.salesAmount * 100

/-- `avg_profit_margin = data['Profit_Margin'].mean()` (line 80 of
`create_executive_summary`; the same expression appears at line 834 in
`generate_business_recommendations`). -/
def avg_profit_margin (data : List MarginRow) : ℚ :=
  (data.map MarginRow.profitMargin).sum / (data.length : ℚ)

/-- Group-by-`Category` sum of `Sales Amount`
(`create_product_intelligence`, lines 320-325). -/
def categorySales (data : List MarginRow) (c : String) : ℚ :=
  ((data.filter (fun r => decide (r.category = c))).map MarginRow.salesAmount).sum

/-- Group-by-`Category` sum of `Profit`
(`create_product_intelligence`, lines 320-325). -/
def categoryProfit (data : List MarginRow) (c : String) : ℚ :=
  ((data.filter (fun r => decide (r.category = c))).map MarginRow.profit).sum

/-- `category_metrics['Profit_Margin'] = Profit_sum / Sales_sum * 100`
(line 326). -/
def category_profit_margin (data : List MarginRow) (c : String) : ℚ :=
  categoryProfit data c / categorySales data c * 100

/-- C2 counterexample: on the two-row group (revenues 100 and 300, costs 60
and 150, hence profits 40 and 150 and row margins 40% and 50%) the
executive summary's reported average profit margin is the arithmetic mean of
the per-row ratios, 45% — not the ratio of aggregated sums
`190/400*100 = 47.5%`, which is what the per-category margin computes.  So
not every reported division-derived aggregate equals the ratio of sums. -/
theorem avg_profit_margin_is_row_mean :
    avg_profit_margin [⟨"A", 100, 60⟩, ⟨"A", 300, 150⟩] = 45
    ∧ category_profit_margin [⟨"A", 100, 60⟩, ⟨"A", 300, 150⟩] "A" = 190 / 400 * 100
    ∧ (45 : ℚ) ≠ 190 / 400 * 100 := by
  refine ⟨?_, ?_, by norm_num⟩
  · norm_num [avg_profit_margin, MarginRow.profitMargin, MarginRow.profit]
  · norm_num [category_profit_margin, categoryProfit, categorySales,
      MarginRow.profit, List.filter]

/-- C2 amended: the group-level margins (per-category, and likewise per
channel) are computed post hoc from aggregated sums — the per-category margin
equals the revenue-weighted mean of the per-row margins, i.e. the ratio of
summed profit to summed revenue — but the executive summary's
`avg_profit_margin` (line 80) is the unweighted arithmetic mean of the
per-row margin ratios, and the two generally differ (47.5% vs 45% on the
example group). -/
theorem category_margin_ratio_of_sums (data : List MarginRow) (c : String)
    (hrows : ∀ r ∈ data, r.category = c → r.salesAmount ≠ 0) :
    category_profit_margin data c
      = ((data.filter (fun r => decide (r.category = c))).map
          (fun r => r.profitMargin * r.salesAmount)).sum / categorySales data c
    ∧ avg_profit_margin data
      = (data.map MarginRow.profitMargin).sum / (data.length : ℚ) := by
  refine ⟨?_, rfl⟩
  have hmap : (data.filter (fun r => decide (r.category = c))).map
        (fun r => r.profitMargin * r.salesAmount)
      = (data.filter (fun r => decide (r.category = c))).map
        (fun r => 100 * r.profit) := by
    apply List.map_congr_left
    intro r hr
    have hc : r.category = c := by simpa using List.of_mem_filter hr
    have hs : r.salesAmount ≠ 0 := hrows r (List.mem_of_mem_filter hr) hc
    unfold MarginRow.profitMargin
    field_simp
    ring
  rw [hmap, List.sum_map_mul_left]
  unfold category_profit_margin categoryProfit categorySales
  rw [div_mul_eq_mul_div, mul_comm]

/-- C2 amended witness: the ratio-of-sums identity evaluated on the example
group. -/
theorem category_margin_ratio_of_sums_witness :
    category_profit_margin [⟨"A", 100, 60⟩, ⟨"A", 300, 150⟩] "A"
      = ((([⟨"A", 100, 60⟩, ⟨"A", 300, 150⟩] : List MarginRow).filter
          (fun r => decide (r.category = "A"))).map
            (fun r => r.profitMargin * r.salesAmount)).sum
        / categorySales [⟨"A", 100, 60⟩, ⟨"A", 300, 150⟩] "A" :=
  (category_margin_ratio_of_sums [⟨"A", 100, 60⟩, ⟨"A", 300, 150⟩] "A"
    (by intro r hr; fin_cases hr <;> norm_num)).1

/-!
## Trend fit and forecasting (C6)

`create_predictive_insights` (lines 641-648) fits
`slope, intercept, r_value, _, _ = stats.linregress(x, y)` over the implicit
index `0..n-1` and forecasts `slope * x + intercept` for the next indices.
scipy computes `r = ssxym / sqrt(ssxm * ssym)` and defines `r = 0` whenever
that denominator is zero; the script reports `r_value ** 2`.  We model the
deviation sums exactly over `ℚ` (scipy's common `1/n` covariance factor
cancels in both `slope` and `r`) and return the squared correlation, which is
`ssxym^2 / (ssxm * ssym)` when `ssxm * ssym ≠ 0` and `0` otherwise.
-/

/-- Arithmetic mean of a rational column. -/
def meanQ (l : List ℚ) : ℚ := l.sum / (l.length : ℚ)

/-- The implicit regression index `0..n-1` (`np.arange(len(monthly_sales))`,
line 642). -/
def idxList (n : ℕ) : List ℚ := (List.range n).map (fun i => (i : ℚ))

/-- Sum of squared deviations from the mean. -/
def devSq (l : List ℚ) : ℚ := (l.map (fun x => (x - meanQ l) ^ 2)).sum

/-- Sum of products of deviations of two aligned columns. -/
def devProd (xs ys : List ℚ) : ℚ :=
  (List.zipWith (fun x y => (x - meanQ xs) * (y - meanQ ys)) xs ys).sum

/-- `stats.linregress(np.arange(n), ys)` (line 643): slope, intercept and the
squared correlation the script reports. -/
def linregress (ys : List ℚ) : ℚ × ℚ × ℚ :=
  let xs := idxList ys.length
  let slope := devProd xs ys / devSq xs
  let intercept := meanQ ys - slope * meanQ xs
  let rsq :=
    if devSq xs * devSq ys = 0 then 0
    else devProd xs ys ^ 2 / (devSq xs * devSq ys)
  (slope, intercept, rsq)

/-- `future_sales = slope * future_x + intercept` for
`future_x = np.arange(n, n + h)` (lines 646-648). -/
def forecastSales (ys : List ℚ) (h : ℕ) : List ℚ :=
  (List.range h).map
    (fun i => (linregress ys).1 * ((ys.length + i : ℕ) : ℚ) + (linregress ys).2.1)

/-- C6 counterexample: fitting the constant sequence `[5,5,5,5]` yields the
reported R² equal to 0, not 1 — scipy's `linregress` defines `r = 0` when
the correlation denominator `sqrt(ssxm * ssym)` is zero, and a constant
sequence has `ssym = 0`. -/
theorem linregress_constant_rsq_zero :
    (linregress [5, 5, 5, 5]).2.2 = 0 ∧ (0 : ℚ) ≠ 1 := by
  constructor
  · norm_num [linregress, devSq, devProd, meanQ, idxList,
      show List.range 4 = [0, 1, 2, 3] from rfl]
  · norm_num

/-- Terms of a `zipWith` vanish when the function kills the constant right
argument. -/
lemma zipWith_replicate_right_sum_zero {f : ℚ → ℚ → ℚ} {v : ℚ}
    (hf : ∀ x, f x v = 0) :
    ∀ (xs : List ℚ) (n : ℕ), (List.zipWith f xs (List.replicate n v)).sum = 0 := by
  intro xs
  induction xs with
  | nil => intro n; simp
  | cons x xs ih =>
      intro n
      cases n with
      | zero => simp
      | succ m => simp [List.replicate_succ, hf, ih m]

/-- C6 amended: fitting a constant sequence of length at least 2 yields slope
0 and intercept equal to the constant, the forecast of any horizon returns the
constant repeated — but the reported R² is 0, not 1, because scipy's guard
sets `r = 0` (not 1) when `ssxm * ssym = 0`. -/
theorem linregress_constant_sequence (n : ℕ) (v : ℚ) (hn : 2 ≤ n) :
    linregress (List.replicate n v) = (0, v, 0)
    ∧ ∀ h : ℕ, forecastSales (List.replicate n v) h = List.replicate h v := by
  have hn0 : (n : ℚ) ≠ 0 := Nat.cast_ne_zero.mpr (by omega)
  have hmean : meanQ (List.replicate n v) = v := by
    rw [meanQ, List.sum_replicate, List.length_replicate, nsmul_eq_mul]
    field_simp
  have hdev : devSq (List.replicate n v) = 0 := by
    rw [devSq, hmean, List.map_replicate]
    simp
  have hprod : devProd (idxList n) (List.replicate n v) = 0 := by
    rw [devProd, hmean]
    exact zipWith_replicate_right_sum_zero (fun x => by ring) _ n
  have hlin : linregress (List.replicate n v) = (0, v, 0) := by
    simp [linregress, hprod, hdev, hmean]
  refine ⟨hlin, fun h => ?_⟩
  rw [forecastSales, hlin]
  simp [List.eq_replicate_iff]

/-- C6 amended witness: the constant sequence `[5,5,5,5]` (n = 4, v = 5)
fits to slope 0, intercept 5, R² 0 and forecasts `5` for 3 future periods. -/
theorem linregress_constant_sequence_witness :
    linregress (List.replicate 4 (5 : ℚ)) = (0, 5, 0)
    ∧ forecastSales (List.replicate 4 (5 : ℚ)) 3 = List.replicate 3 5 :=
  ⟨(linregress_constant_sequence 4 5 (by norm_num)).1,
   (linregress_constant_sequence 4 5 (by norm_num)).2 3⟩

/-!
## Year-over-year growth (C10)

`create_executive_summary` (lines 84-89): group the enriched data by
`Fiscal Year`, sum `Sales Amount`, sort by the year index, and report
`(last - second_to_last) / second_to_last * 100` when there is more than one
year, else `0`.
-/

/-- The `Fiscal Year` / `Sales Amount` columns of the enriched dataset used by
the growth metric (the fiscal year is joined in from `Date_data`). -/
structure YearRow where
  fiscalYear : ℤ
  salesAmount : ℚ
  deriving DecidableEq, Repr

/-- `data.groupby('Fiscal Year')['Sales Amount'].sum()` for one year. -/
def yearlySalesSum (data : List YearRow) (y : ℤ) : ℚ :=
  ((data.filter (fun r => decide (r.fiscalYear = y))).map YearRow.salesAmount).sum

/-- The distinct fiscal years, sorted ascending (`groupby` then
`.sort_index()`). -/
def fiscalYearsSorted (data : List YearRow) : List ℤ :=
  ((data.map YearRow.fiscalYear).dedup).mergeSort (fun a b => a ≤ b)

/-- `yoy_growth` (lines 86-89): with more than one fiscal year,
`(yearly_sales.iloc[-1] - yearly_sales.iloc[-2]) / yearly_sales.iloc[-2] * 100`;
otherwise `0`. -/
def yoy_growth (data : List YearRow) : ℚ :=
  match (fiscalYearsSorted data).reverse with
  | yl :: yp :: _ =>
      (yearlySalesSum data yl - yearlySalesSum data yp)
        / yearlySalesSum data yp * 100
  | _ => 0

/-- C10: the executive summary's year-over-year growth is computed from
fiscal-year revenue sums ordered by fiscal year as
`(last year's sum - previous year's sum) / previous year's sum × 100`, where
"last" is the maximum fiscal year present and "previous" the largest other
year; and for every dataset containing exactly one fiscal year it equals 0
rather than failing or being missing. -/
theorem yoy_growth_spec (data : List YearRow) :
    ((data.map YearRow.fiscalYear).dedup.length = 1 → yoy_growth data = 0)
    ∧ (2 ≤ (data.map YearRow.fiscalYear).dedup.length →
        ∃ ymax yprev : ℤ,
          ymax ∈ data.map YearRow.fiscalYear
          ∧ yprev ∈ data.map YearRow.fiscalYear
          ∧ yprev < ymax
          ∧ (∀ y ∈ data.map YearRow.fiscalYear, y ≤ ymax)
          ∧ (∀ y ∈ data.map YearRow.fiscalYear, y ≠ ymax → y ≤ yprev)
          ∧ yoy_growth data =
              (yearlySalesSum data ymax - yearlySalesSum data yprev)
                / yearlySalesSum data yprev * 100) := by
  have hperm : List.Perm (fiscalYearsSorted data)
      ((data.map YearRow.fiscalYear).dedup) :=
    List.mergeSort_perm _ _
  have hsorted : (fiscalYearsSorted data).Sorted (· ≤ ·) :=
    List.sorted_mergeSort' _
  have hnodup : (fiscalYearsSorted data).Nodup :=
    hperm.nodup_iff.mpr (List.nodup_dedup _)
  have hlen : (fiscalYearsSorted data).length
      = (data.map YearRow.fiscalYear).dedup.length := hperm.length_eq
  have hmem : ∀ y : ℤ, y ∈ fiscalYearsSorted data ↔ y ∈ data.map YearRow.fiscalYear := by
    intro y
    rw [hperm.mem_iff, List.mem_dedup]
  constructor
  · intro h1
    rw [yoy_growth]
    have : (fiscalYearsSorted data).reverse.length = 1 := by
      rw [List.length_reverse, hlen, h1]
    match hrev : (fiscalYearsSorted data).reverse with
    | [] => rfl
    | [_] => rfl
    | _ :: _ :: _ => rw [hrev] at this; simp at this
  · intro h2
    have hlen2 : 2 ≤ (fiscalYearsSorted data).reverse.length := by
      rw [List.length_reverse, hlen]; exact h2
    match hrev : (fiscalYearsSorted data).reverse with
    | [] => rw [hrev] at hlen2; simp at hlen2
    | [_] => rw [hrev] at hlen2; simp at hlen2
    | yl :: yp :: t =>
        have hpw : (fiscalYearsSorted data).reverse.Pairwise (fun a b => b ≤ a) := by
          rw [List.pairwise_reverse]
          exact hsorted
        have hnd : (fiscalYearsSorted data).reverse.Nodup := List.nodup_reverse.mpr hnodup
        rw [hrev] at hpw hnd
        have hylyp : yp ≤ yl := (List.pairwise_cons.mp hpw).1 yp (by simp)
        have hylt : ∀ z ∈ t, z ≤ yl := fun z hz =>
          (List.pairwise_cons.mp hpw).1 z (by simp [hz])
        have hypt : ∀ z ∈ t, z ≤ yp :=
          fun z hz => (List.pairwise_cons.mp (List.pairwise_cons.mp hpw).2).1 z hz
        have hne : yl ≠ yp := by
          intro h
          exact (List.nodup_cons.mp hnd).1 (h ▸ List.mem_cons_self yp t)
        have hmemrev : ∀ y : ℤ,
            y ∈ data.map YearRow.fiscalYear ↔ y ∈ yl :: yp :: t := by
          intro y
          rw [← hmem y, ← List.mem_reverse, hrev]
        refine ⟨yl, yp, ?_, ?_, ?_, ?_, ?_, ?_⟩
        · exact (hmemrev yl).mpr (by simp)
        · exact (hmemrev yp).mpr (by simp)
        · exact lt_of_le_of_ne hylyp (Ne.symm hne)
        · intro y hy
          rcases List.mem_cons.mp ((hmemrev y).mp hy) with rfl | hy2
          · exact le_refl y
          · rcases List.mem_cons.mp hy2 with rfl | hy3
            · exact hylyp
            · exact hylt y hy3
        · intro y hy hyne
          rcases List.mem_cons.mp ((hmemrev y).mp hy) with rfl | hy2
          · exact absurd rfl hyne
          · rcases List.mem_cons.mp hy2 with rfl | hy3
            · exact le_refl y
            · exact hypt y hy3
        · rw [yoy_growth, hrev]

/-- C10 witness: a one-year dataset reports 0 growth, and a two-year dataset
reports the ratio formula on the max and second-largest years. -/
theorem yoy_growth_spec_witness :
    yoy_growth [⟨2018, 100⟩] = 0
    ∧ (∃ ymax yprev : ℤ,
        ymax ∈ ([⟨2019, 300⟩, ⟨2018, 100⟩] : List YearRow).map YearRow.fiscalYear
        ∧ yprev ∈ ([⟨2019, 300⟩, ⟨2018, 100⟩] : List YearRow).map YearRow.fiscalYear
        ∧ yprev < ymax
        ∧ (∀ y ∈ ([⟨2019, 300⟩, ⟨2018, 100⟩] : List YearRow).map YearRow.fiscalYear,
            y ≤ ymax)
        ∧ (∀ y ∈ ([⟨2019, 300⟩, ⟨2018, 100⟩] : List YearRow).map YearRow.fiscalYear,
            y ≠ ymax → y ≤ yprev)
        ∧ yoy_growth [⟨2019, 300⟩, ⟨2018, 100⟩] =
            (yearlySalesSum [⟨2019, 300⟩, ⟨2018, 100⟩] ymax
              - yearlySalesSum [⟨2019, 300⟩, ⟨2018, 100⟩] yprev)
              / yearlySalesSum [⟨2019, 300⟩, ⟨2018, 100⟩] yprev * 100) :=
  ⟨(yoy_growth_spec [⟨2018, 100⟩]).1 (by decide),
   (yoy_growth_spec [⟨2019, 300⟩, ⟨2018, 100⟩]).2 (by decide)⟩

/-!
## Recommendation synthesizer (C9)

`generate_business_recommendations` (lines 770-842) appends six fixed
recommendation categories.  Only "Channel Strategy" is guarded
(`if len(channel_performance) > 1`, line 812); the others are appended
unconditionally, and several of them index into a group-by result
(`country_sales.index[0]`, `product_profit.index[0]`, `monthly_avg.idxmax()`)
— operations that raise on an empty aggregation, which aborts the whole
function.  We model the result as `Option`: `none` when the function raises.
The free-text findings and impact figures are elided; the category label,
priority and emission control flow are modelled.
-/

/-- The enriched-dataset columns `generate_business_recommendations` groups
by: `Country` (from `Sales Territory_data`), `Product` (from `Product_data`),
`CustomerKey`, `Channel` (from `Sales Order_data`), `Month_Name` (from the
order date), with `Sales Amount`, `Profit` and `Profit_Margin` as the
aggregated measures. -/
structure RecRow where
  country : String
  product : String
  customerKey : ℤ
  channel : String
  monthName : String
  salesAmount : ℚ
  profit : ℚ
  deriving DecidableEq, Repr

/-- A recommendation's fixed category label and fixed priority (the free text
and impact estimate are data-dependent strings, not modelled). -/
structure Recommendation where
  category : String
  priority : String
  deriving DecidableEq, Repr

/-- `generate_business_recommendations` (lines 770-842).  Returns `none` when
the Python function would raise (indexing an empty group-by result). -/
def generate_business_recommendations (data : List RecRow) :
    Option (List Recommendation) :=
  -- country_sales.index[0] / country_sales.index[-1] (lines 777-779):
  -- IndexError on an empty country aggregation
  if ((data.map RecRow.country).dedup).isEmpty then none
  -- product_profit.index[0] (lines 789-790): IndexError when empty
  else if ((data.map RecRow.product).dedup).isEmpty then none
  -- monthly_avg.idxmax() / idxmin() (lines 822-824): ValueError when empty
  else if ((data.map RecRow.monthName).dedup).isEmpty then none
  else
    some ([⟨"Geographic Expansion", "High"⟩,
           ⟨"Product Strategy", "High"⟩,
           ⟨"Customer Retention", "Medium"⟩]
      ++ (if 1 < ((data.map RecRow.channel).dedup).length
            then [⟨"Channel Strategy", "Medium"⟩] else [])
      ++ [⟨"Seasonal Planning", "Medium"⟩,
          ⟨"Profitability", "High"⟩])

/-- C9 counterexample: on the empty dataset the synthesizer raises
(`country_sales.index[0]` is an `IndexError`) instead of gracefully omitting
the under-populated categories — so it is not true for *every* input dataset
that categories with fewer than 2 groups are merely skipped. -/
theorem generate_business_recommendations_empty_raises :
    generate_business_recommendations [] = none := rfl

/-- C9 amended: for every non-empty dataset the synthesizer completes without
raising, the "Channel Strategy" recommendation is emitted iff the channel
aggregation has at least 2 distinct channel groups, and the other five
categories are always emitted. -/
theorem generate_business_recommendations_channel_guard
    (data : List RecRow) (hne : data ≠ []) :
    ∃ recs : List Recommendation,
      generate_business_recommendations data = some recs
      ∧ ((⟨"Channel Strategy", "Medium"⟩ : Recommendation) ∈ recs
          ↔ 2 ≤ ((data.map RecRow.channel).dedup).length)
      ∧ (∀ c ∈ ["Geographic Expansion", "Product Strategy",
            "Customer Retention", "Seasonal Planning", "Profitability"],
          ∃ r ∈ recs, Recommendation.category r = c) := by
  obtain ⟨r0, rest, rfl⟩ : ∃ r0 rest, data = r0 :: rest := by
    cases data with
    | nil => exact absurd rfl hne
    | cons r0 rest => exact ⟨r0, rest, rfl⟩
  have hmemc : ∀ (f : RecRow → String),
      f r0 ∈ ((r0 :: rest).map f).dedup := by
    intro f
    rw [List.mem_dedup]
    exact List.mem_map_of_mem f (List.mem_cons_self _ _)
  have hne2 : ∀ (f : RecRow → String),
      (((r0 :: rest).map f).dedup).isEmpty = false := by
    intro f
    rcases h : (((r0 :: rest).map f).dedup) with _ | _
    · exact absurd (h ▸ hmemc f) (List.not_mem_nil _)
    · rfl
  rw [generate_business_recommendations, hne2 RecRow.country,
    hne2 RecRow.product, hne2 RecRow.monthName]
  simp only [Bool.false_eq_true, if_false]
  refine ⟨_, rfl, ?_, ?_⟩
  · constructor
    · intro hmem
      by_contra hlt
      rw [if_neg (by omega)] at hmem
      simp at hmem
    · intro h2
      rw [if_pos (by omega)]
      simp
  · intro c hc
    fin_cases hc <;>
      [exact ⟨⟨"Geographic Expansion", "High"⟩, by simp, rfl⟩;
       exact ⟨⟨"Product Strategy", "High"⟩, by simp, rfl⟩;
       exact ⟨⟨"Customer Retention", "Medium"⟩, by simp, rfl⟩;
       exact ⟨⟨"Seasonal Planning", "Medium"⟩, by simp, rfl⟩;
       exact ⟨⟨"Profitability", "High"⟩, by simp, rfl⟩]

/-- C9 amended witness: a concrete single-channel dataset emits the five
unconditional categories and omits "Channel Strategy". -/
theorem generate_business_recommendations_channel_guard_witness :
    ∃ recs : List Recommendation,
      generate_business_recommendations
          [⟨"Australia", "Road-150", 1, "Internet", "July", 100, 40⟩] = some recs
      ∧ ((⟨"Channel Strategy", "Medium"⟩ : Recommendation) ∈ recs
          ↔ 2 ≤ ((([⟨"Australia", "Road-150", 1, "Internet", "July", 100, 40⟩] :
              List RecRow).map RecRow.channel).dedup).length)
      ∧ (∀ c ∈ ["Geographic Expansion", "Product Strategy",
            "Customer Retention", "Seasonal Planning", "Profitability"],
          ∃ r ∈ recs, Recommendation.category r = c) :=
  generate_business_recommendations_channel_guard
    [⟨"Australia", "Road-150", 1, "Internet", "July", 100, 40⟩] (by simp)

/-!
## Correlation matrix (C8)

`create_predictive_insights` (lines 716-718) computes
`product_metrics[cols].corr()`.  pandas' `nancorr` masks, for each column
pair, the rows where either cell is NaN, and computes the Pearson coefficient
`cov / sqrt(vx * vy)` over the remaining rows; the result is NaN when fewer
than `min_periods` (default 1) rows survive or when the divisor is zero.  We
represent a cell exactly over `ℚ`: `some (num, denSq)` stands for the
coefficient `num / √denSq` (so the cell equals 1 iff `0 < num` and
`num ^ 2 = denSq`), and `none` models NaN.
-/

/-- The jointly non-null row pairs of two aligned columns (pandas' NaN
mask). -/
def pairedObs : List (Option ℚ) → List (Option ℚ) → List (ℚ × ℚ)
  | some a :: xs, some b :: ys => (a, b) :: pairedObs xs ys
  | _ :: xs, _ :: ys => pairedObs xs ys
  | _, _ => []

/-- Sum of products of deviations of the paired observations. -/
def covXY (l : List (ℚ × ℚ)) : ℚ :=
  (l.map (fun p => (p.1 - meanQ (l.map (fun q => q.1)))
    * (p.2 - meanQ (l.map (fun q => q.2))))).sum

/-- Sum of squared deviations of the first components. -/
def varX (l : List (ℚ × ℚ)) : ℚ :=
  (l.map (fun p => (p.1 - meanQ (l.map (fun q => q.1))) ^ 2)).sum

/-- Sum of squared deviations of the second components. -/
def varY (l : List (ℚ × ℚ)) : ℚ :=
  (l.map (fun p => (p.2 - meanQ (l.map (fun q => q.2))) ^ 2)).sum

/-- One cell of `DataFrame.corr()`: NaN (`none`) when no jointly non-null
rows survive or the divisor `sqrt(vx*vy)` is zero; otherwise the coefficient
`cov / √(vx*vy)`, represented as the pair `(cov, vx*vy)`. -/
def corrCell (xs ys : List (Option ℚ)) : Option (ℚ × ℚ) :=
  if (pairedObs xs ys).length = 0 then none
  else if varX (pairedObs xs ys) * varY (pairedObs xs ys) = 0 then none
  else some (covXY (pairedObs xs ys),
    varX (pairedObs xs ys) * varY (pairedObs xs ys))

/-- The matrix of lines 717-718 as a mapping from column-index pairs to
cells. -/
def correlation_matrix (cols : List (List (Option ℚ))) (i j : ℕ) :
    Option (ℚ × ℚ) :=
  corrCell (cols.getD i []) (cols.getD j [])

/-- Does a represented cell equal exactly 1?  (`num / √denSq = 1` iff
`0 < num` and `num ^ 2 = denSq`.) -/
def entryIsOne : Option (ℚ × ℚ) → Bool
  | some (n, d) => decide (0 < n) && decide (n ^ 2 = d)
  | none => false

/-- Swapping the two columns swaps the paired observations pointwise. -/
lemma pairedObs_symm (xs ys : List (Option ℚ)) :
    pairedObs ys xs = (pairedObs xs ys).map (fun p => (p.2, p.1)) := by
  induction xs generalizing ys with
  | nil =>
      cases ys with
      | nil => rfl
      | cons y ys => cases y <;> rfl
  | cons x xs ih =>
      cases ys with
      | nil => cases x <;> rfl
      | cons y ys => cases x <;> cases y <;> simp [pairedObs, ih]

/-- First components of the swapped list are the second components. -/
lemma map_fst_swap (l : List (ℚ × ℚ)) :
    (l.map (fun p => (p.2, p.1))).map (fun q : ℚ × ℚ => q.1)
      = l.map (fun q => q.2) := by
  rw [List.map_map]; rfl

/-- Second components of the swapped list are the first components. -/
lemma map_snd_swap (l : List (ℚ × ℚ)) :
    (l.map (fun p => (p.2, p.1))).map (fun q : ℚ × ℚ => q.2)
      = l.map (fun q => q.1) := by
  rw [List.map_map]; rfl

/-- The deviation-product sum is symmetric under swapping. -/
lemma covXY_swap (l : List (ℚ × ℚ)) :
    covXY (l.map (fun p => (p.2, p.1))) = covXY l := by
  unfold covXY
  rw [map_fst_swap, map_snd_swap, List.map_map]
  congr 1
  apply List.map_congr_left
  intro p _
  simp only [Function.comp]
  ring

/-- `varX` of the swapped list is `varY`. -/
lemma varX_swap (l : List (ℚ × ℚ)) :
    varX (l.map (fun p => (p.2, p.1))) = varY l := by
  unfold varX varY
  rw [map_fst_swap, List.map_map]
  rfl

/-- `varY` of the swapped list is `varX`. -/
lemma varY_swap (l : List (ℚ × ℚ)) :
    varY (l.map (fun p => (p.2, p.1))) = varX l := by
  unfold varX varY
  rw [map_snd_swap, List.map_map]
  rfl

/-- A correlation cell is symmetric in its two columns. -/
lemma corrCell_symm (xs ys : List (Option ℚ)) :
    corrCell ys xs = corrCell xs ys := by
  unfold corrCell
  rw [pairedObs_symm xs ys, List.length_map, covXY_swap, varX_swap, varY_swap,
    mul_comm (varY (pairedObs xs ys)) (varX (pairedObs xs ys))]

/-- Cauchy-Schwarz for list sums. -/
lemma list_cauchy_schwarz (l : List (ℚ × ℚ)) (f g : ℚ × ℚ → ℚ) :
    ((l.map (fun p => f p * g p)).sum) ^ 2
      ≤ (l.map (fun p => f p ^ 2)).sum * (l.map (fun p => g p ^ 2)).sum := by
  have hconv : ∀ F : ℚ × ℚ → ℚ,
      (l.map F).sum = ∑ i : Fin l.length, F (l.get i) := by
    intro F
    conv_lhs => rw [← List.ofFn_get l]
    rw [List.map_ofFn, List.sum_ofFn]
    rfl
  rw [hconv, hconv, hconv]
  exact Finset.sum_mul_sq_le_sq_mul_sq Finset.univ _ _

/-- A sum of squares of rationals is nonnegative. -/
lemma sum_sq_nonneg (l : List ℚ) (f : ℚ → ℚ) :
    0 ≤ (l.map (fun x => f x ^ 2)).sum := by
  apply List.sum_nonneg
  intro x hx
  rcases List.mem_map.mp hx with ⟨a, _, rfl⟩
  positivity

/-- A sum of squares of pair components is nonnegative. -/
lemma sum_sq_nonneg_pair (l : List (ℚ × ℚ)) (f : ℚ × ℚ → ℚ) :
    0 ≤ (l.map (fun p => f p ^ 2)).sum := by
  apply List.sum_nonneg
  intro x hx
  rcases List.mem_map.mp hx with ⟨a, _, rfl⟩
  positivity

/-- The diagonal paired observations duplicate the non-null cells. -/
lemma pairedObs_self (xs : List (Option ℚ)) :
    pairedObs xs xs = (xs.filterMap id).map (fun a => (a, a)) := by
  induction xs with
  | nil => rfl
  | cons x xs ih => cases x <;> simp [pairedObs, ih]

/-- On the diagonal, `varX`, `varY` and `covXY` all reduce to the deviation
sum of the non-null column values. -/
lemma diag_var_eq (xs : List (Option ℚ)) :
    varX (pairedObs xs xs) = devSq (xs.filterMap id)
    ∧ varY (pairedObs xs xs) = devSq (xs.filterMap id)
    ∧ covXY (pairedObs xs xs) = devSq (xs.filterMap id) := by
  rw [pairedObs_self]
  unfold varX varY covXY devSq
  have h1 : ((xs.filterMap id).map (fun a => (a, a))).map (fun q : ℚ × ℚ => q.1)
      = xs.filterMap id := by
    rw [List.map_map]; exact List.map_id _
  have h2 : ((xs.filterMap id).map (fun a => (a, a))).map (fun q : ℚ × ℚ => q.2)
      = xs.filterMap id := by
    rw [List.map_map]; exact List.map_id _
  rw [h1, h2]
  refine ⟨?_, ?_, ?_⟩
  · rw [List.map_map]
    rfl
  · rw [List.map_map]
    rfl
  · rw [List.map_map]
    congr 1
    apply List.map_congr_left
    intro a _
    simp only [Function.comp_apply]
    ring

/-- C8 counterexample: a non-empty record set (2 rows) over a non-empty
column set whose first column is constant (`[5, 5]`): the diagonal cell of
that column is NaN (`none`) — pandas' divisor `sqrt(vx*vy)` is zero for a
zero-variance column — so the diagonal is not 1 regardless of null patterns
and values. -/
theorem correlation_diag_nan_on_constant_column :
    correlation_matrix [[some 5, some 5], [some 1, some 2]] 0 0 = none
    ∧ entryIsOne (correlation_matrix [[some 5, some 5], [some 1, some 2]] 0 0)
        = false := by
  have h : correlation_matrix [[some 5, some 5], [some 1, some 2]] 0 0 = none := by
    norm_num [correlation_matrix, corrCell, pairedObs, varX, varY, meanQ]
  exact ⟨h, by rw [h]; rfl⟩

/-- C8 amended: the correlation matrix is symmetric, and every defined
(non-NaN) cell `num/√denSq` lies in `[-1, 1]` (`num² ≤ denSq` with
`denSq > 0`); but the diagonal cell of a column equals exactly 1 if and only
if the column's non-null values have nonzero deviation sum (at least two
distinct non-null values) — a constant, all-null or single-valued column
yields a NaN diagonal cell, not 1. -/
theorem correlation_matrix_properties :
    (∀ (cols : List (List (Option ℚ))) (i j : ℕ),
        correlation_matrix cols i j = correlation_matrix cols j i)
    ∧ (∀ (xs ys : List (Option ℚ)) (n d : ℚ), corrCell xs ys = some (n, d) →
        n ^ 2 ≤ d ∧ 0 < d)
    ∧ (∀ (cols : List (List (Option ℚ))) (i : ℕ),
        entryIsOne (correlation_matrix cols i i) = true
          ↔ devSq ((cols.getD i []).filterMap id) ≠ 0) := by
  refine ⟨fun cols i j => corrCell_symm _ _, ?_, ?_⟩
  · intro xs ys n d h
    unfold corrCell at h
    split_ifs at h with hlen hvar
    rw [Option.some_inj, Prod.mk.injEq] at h
    obtain ⟨hn, hd⟩ := h
    subst hn
    subst hd
    constructor
    · exact list_cauchy_schwarz (pairedObs xs ys)
        (fun q => q.1 - meanQ ((pairedObs xs ys).map fun r => r.1))
        (fun q => q.2 - meanQ ((pairedObs xs ys).map fun r => r.2))
    · exact lt_of_le_of_ne
        (mul_nonneg
          (sum_sq_nonneg_pair (pairedObs xs ys)
            (fun q => q.1 - meanQ ((pairedObs xs ys).map fun r => r.1)))
          (sum_sq_nonneg_pair (pairedObs xs ys)
            (fun q => q.2 - meanQ ((pairedObs xs ys).map fun r => r.2))))
        (Ne.symm hvar)
  · intro cols i
    obtain ⟨hvx, hvy, hcov⟩ := diag_var_eq (cols.getD i [])
    have hDnonneg : 0 ≤ devSq ((cols.getD i []).filterMap id) :=
      sum_sq_nonneg _ _
    unfold correlation_matrix corrCell
    rw [hvx, hvy, hcov]
    by_cases hD : devSq ((cols.getD i []).filterMap id) = 0
    · rw [hD]
      have hcell :
          (if (pairedObs (cols.getD i []) (cols.getD i [])).length = 0 then none
           else if (0 : ℚ) * 0 = 0 then none
           else some ((0 : ℚ), (0 : ℚ) * 0)) = none := by
        split_ifs with h1 h2
        · rfl
        · rfl
        · exact absurd (by norm_num) h2
      rw [hcell]
      simp [entryIsOne]
    · have hlen : ¬ (pairedObs (cols.getD i []) (cols.getD i [])).length = 0 := by
        intro hl
        apply hD
        have hemp : pairedObs (cols.getD i []) (cols.getD i []) = [] :=
          List.length_eq_zero.mp hl
        rw [pairedObs_self] at hemp
        have hnn : (cols.getD i []).filterMap id = [] := by
          cases hc : (cols.getD i []).filterMap id with
          | nil => rfl
          | cons a t => rw [hc] at hemp; simp at hemp
        rw [hnn]
        rfl
      rw [if_neg hlen, if_neg (mul_ne_zero hD hD)]
      have hpos : 0 < devSq ((cols.getD i []).filterMap id) :=
        lt_of_le_of_ne hDnonneg (Ne.symm hD)
      simp [entryIsOne, hpos, sq, hD]
      exact ⟨fun h => ne_of_gt h,
        fun h => lt_of_le_of_ne (sum_sq_nonneg _ _) (Ne.symm h)⟩

/-- C8 amended witness: the cell of the concrete columns `[0,1]` and `[0,2]`
is the defined coefficient `1/√1`, which lies in `[-1,1]`; and the diagonal
cell of the non-constant column `[0,1]` equals exactly 1. -/
theorem correlation_matrix_properties_witness :
    corrCell [some 0, some 1] [some 0, some 2] = some (1, 1)
    ∧ ((1 : ℚ) ^ 2 ≤ 1 ∧ (0 : ℚ) < 1)
    ∧ entryIsOne (correlation_matrix [[some 0, some 1]] 0 0) = true := by
  have hcell : corrCell [some 0, some 1] [some 0, some 2] = some (1, 1) := by
    norm_num [corrCell, pairedObs, covXY, varX, varY, meanQ]
  refine ⟨hcell, correlation_matrix_properties.2.1 _ _ 1 1 hcell, ?_⟩
  exact (correlation_matrix_properties.2.2 [[some 0, some 1]] 0).mpr
    (by norm_num [devSq, meanQ,
      show List.filterMap id [some (0 : ℚ), some 1] = [0, 1] from rfl])

/-!
## Quantile segmentation (C7)

`create_customer_analytics` (lines 445-446):
`pd.qcut(customer_metrics['Total_Spent'], q=4,
labels=['Low','Medium','High','Premium'])`.  `qcut` computes the quartile
edges of the score distribution with numpy's linear interpolation at the
fractional positions `(n-1)*p`, then bins with right-closed intervals whose
lowest bin includes the minimum.  A score `x` therefore lands in bin
`#{j ∈ {1,2,3} : edge_j < x}`.
-/

/-- numpy linear-interpolation quantile of a *sorted* list at probability
`p`: the value at fractional position `(n-1)*p`. -/
def interpQuantile (sorted : List ℚ) (p : ℚ) : ℚ :=
  sorted.getD (⌊((sorted.length : ℚ) - 1) * p⌋₊) 0
    + (((sorted.length : ℚ) - 1) * p - (⌊((sorted.length : ℚ) - 1) * p⌋₊ : ℚ))
      * (sorted.getD (⌊((sorted.length : ℚ) - 1) * p⌋₊ + 1)
          (sorted.getD (⌊((sorted.length : ℚ) - 1) * p⌋₊) 0)
        - sorted.getD (⌊((sorted.length : ℚ) - 1) * p⌋₊) 0)

/-- `pd.qcut(scores, q=4)` bin index of a value occurring in `scores`:
the number of interior quartile edges strictly below it (right-closed
binning). -/
def qcutBin (scores : List ℚ) (x : ℚ) : ℕ :=
  (if interpQuantile (scores.mergeSort (fun a b => a ≤ b)) (1 / 4) < x
    then 1 else 0)
  + (if interpQuantile (scores.mergeSort (fun a b => a ≤ b)) (2 / 4) < x
    then 1 else 0)
  + (if interpQuantile (scores.mergeSort (fun a b => a ≤ b)) (3 / 4) < x
    then 1 else 0)

/-- The four ordered segment labels of line 446. -/
def spendingLabels : List String := ["Low", "Medium", "High", "Premium"]

/-- `Spending_Segment`: the label qcut assigns to a customer's total
spending. -/
def spendingSegment (scores : List ℚ) (x : ℚ) : String :=
  spendingLabels.getD (qcutBin scores x) ""

/-- Strictly sorted lists have strictly increasing positional access. -/
lemma getD_lt_getD_of_strict (l : List ℚ) (h : l.Pairwise (· < ·)) (i j : ℕ)
    (hij : i < j) (hj : j < l.length) : l.getD i 0 < l.getD j 0 := by
  have hi : i < l.length := lt_trans hij hj
  rw [List.getD_eq_getElem l 0 hi, List.getD_eq_getElem l 0 hj]
  exact List.pairwise_iff_getElem.mp h i j hi hj hij

/-- Strictly sorted lists have monotone positional access. -/
lemma getD_le_getD_of_strict (l : List ℚ) (h : l.Pairwise (· < ·)) (i j : ℕ)
    (hij : i ≤ j) (hj : j < l.length) : l.getD i 0 ≤ l.getD j 0 := by
  rcases Nat.lt_or_ge i j with hlt | hge
  · exact le_of_lt (getD_lt_getD_of_strict l h i j hlt hj)
  · have : i = j := le_antisymm hij hge
    rw [this]

/-- The floor of the interpolation position `(N-1) * (j/4)` is the natural
division `j*(N-1)/4`. -/
lemma floor_quarter_pos (N j : ℕ) (hN : 1 ≤ N) :
    ⌊((N : ℚ) - 1) * ((j : ℚ) / 4)⌋₊ = j * (N - 1) / 4 := by
  have h1 : ((N : ℚ) - 1) * ((j : ℚ) / 4)
      = ((j * (N - 1) : ℕ) : ℚ) / ((4 : ℕ) : ℚ) := by
    push_cast [Nat.cast_sub hN]
    ring
  rw [h1, Nat.floor_div_nat, Nat.floor_natCast]

/-- Rank characterisation of an interpolated quantile on a strictly sorted
list: the values strictly above the quantile at floor position `lo` are
exactly those of rank at least `lo + 1`. -/
lemma interpQuantile_lt_getD_iff (l : List ℚ) (hstrict : l.Pairwise (· < ·))
    (p : ℚ) (hp : 0 ≤ p)
    (hlo : ⌊((l.length : ℚ) - 1) * p⌋₊ + 1 < l.length) :
    ∀ r, r < l.length →
      (interpQuantile l p < l.getD r 0
        ↔ ⌊((l.length : ℚ) - 1) * p⌋₊ + 1 ≤ r) := by
  intro r hr
  have hN1 : 1 ≤ l.length := by omega
  have hq0 : 0 ≤ ((l.length : ℚ) - 1) * p := by
    apply mul_nonneg _ hp
    have : (1 : ℚ) ≤ (l.length : ℚ) := by exact_mod_cast hN1
    linarith
  have hfr0 : (0 : ℚ) ≤ ((l.length : ℚ) - 1) * p
      - (⌊((l.length : ℚ) - 1) * p⌋₊ : ℚ) := by
    have := Nat.floor_le hq0
    linarith
  have hfr1 : ((l.length : ℚ) - 1) * p
      - (⌊((l.length : ℚ) - 1) * p⌋₊ : ℚ) < 1 := by
    have := Nat.lt_floor_add_one (((l.length : ℚ) - 1) * p)
    push_cast at this ⊢
    linarith
  have hΔ : l.getD (⌊((l.length : ℚ) - 1) * p⌋₊) 0
      < l.getD (⌊((l.length : ℚ) - 1) * p⌋₊ + 1) 0 :=
    getD_lt_getD_of_strict l hstrict _ _ (Nat.lt_succ_self _) hlo
  have hdefault : l.getD (⌊((l.length : ℚ) - 1) * p⌋₊ + 1)
        (l.getD (⌊((l.length : ℚ) - 1) * p⌋₊) 0)
      = l.getD (⌊((l.length : ℚ) - 1) * p⌋₊ + 1) 0 := by
    rw [List.getD_eq_getElem l _ hlo, List.getD_eq_getElem l 0 hlo]
  have hlow : l.getD (⌊((l.length : ℚ) - 1) * p⌋₊) 0 ≤ interpQuantile l p := by
    unfold interpQuantile
    rw [hdefault]
    nlinarith [mul_nonneg hfr0 (le_of_lt (sub_pos.mpr hΔ))]
  have hhigh : interpQuantile l p
      < l.getD (⌊((l.length : ℚ) - 1) * p⌋₊ + 1) 0 := by
    unfold interpQuantile
    rw [hdefault]
    nlinarith [mul_lt_mul_of_pos_right hfr1 (sub_pos.mpr hΔ)]
  constructor
  · intro h
    by_contra hcon
    have hle : r ≤ ⌊((l.length : ℚ) - 1) * p⌋₊ := by omega
    have : l.getD r 0 ≤ l.getD (⌊((l.length : ℚ) - 1) * p⌋₊) 0 :=
      getD_le_getD_of_strict l hstrict _ _ hle (by omega)
    linarith
  · intro h
    have : l.getD (⌊((l.length : ℚ) - 1) * p⌋₊ + 1) 0 ≤ l.getD r 0 :=
      getD_le_getD_of_strict l hstrict _ _ h hr
    linarith

/-- Counting values whose rank characterisation is an index window: if a
predicate holds exactly for the positions in `[a, b)`, the filter retains
`b - a` elements. -/
lemma length_filter_rank_window (l : List ℚ) (p : ℚ → Bool) (a b : ℕ)
    (hab : a ≤ b) (hbN : b ≤ l.length)
    (hP : ∀ i, i < l.length → (p (l.getD i 0) = true ↔ (a ≤ i ∧ i < b))) :
    (l.filter p).length = b - a := by
  have hsplit : l = l.take a ++ ((l.drop a).take (b - a) ++ l.drop b) := by
    conv_lhs => rw [← List.take_append_drop a l]
    congr 1
    conv_lhs => rw [← List.take_append_drop (b - a) (l.drop a)]
    congr 1
    rw [List.drop_drop]
    congr 1
    omega
  have hgetD : ∀ (i : ℕ) (y : ℚ), l[i]? = some y → l.getD i 0 = y := by
    intro i y hy
    rw [List.getD_eq_getElem?_getD, hy]
    rfl
  have hA : (l.take a).filter p = [] := by
    rw [List.filter_eq_nil_iff]
    intro y hy
    obtain ⟨i, hi⟩ := List.mem_iff_getElem?.mp hy
    obtain ⟨hlt, hval⟩ := List.getElem?_eq_some.mp hi
    rw [List.length_take] at hlt
    have hia : i < a := lt_of_lt_of_le hlt (min_le_left _ _)
    have hiN : i < l.length := lt_of_lt_of_le hlt (min_le_right _ _)
    have hl : l[i]? = some y := by
      rw [← List.getElem?_take_of_lt hia, hi]
    have hiff := hP i hiN
    rw [hgetD i y hl] at hiff
    intro hpy
    have := hiff.mp hpy
    omega
  have hC : (l.drop b).filter p = [] := by
    rw [List.filter_eq_nil_iff]
    intro y hy
    obtain ⟨i, hi⟩ := List.mem_iff_getElem?.mp hy
    have hl : l[b + i]? = some y := by
      rw [← List.getElem?_drop, hi]
    obtain ⟨hlt, hval⟩ := List.getElem?_eq_some.mp hl
    have hiff := hP (b + i) hlt
    rw [hgetD (b + i) y hl] at hiff
    intro hpy
    have := hiff.mp hpy
    omega
  have hB : ((l.drop a).take (b - a)).filter p = (l.drop a).take (b - a) := by
    rw [List.filter_eq_self]
    intro y hy
    obtain ⟨i, hi⟩ := List.mem_iff_getElem?.mp hy
    obtain ⟨hlt, hval⟩ := List.getElem?_eq_some.mp hi
    rw [List.length_take] at hlt
    have hiba : i < b - a := lt_of_lt_of_le hlt (min_le_left _ _)
    have hl : l[a + i]? = some y := by
      rw [← List.getElem?_drop]
      rw [← List.getElem?_take_of_lt hiba, hi]
    obtain ⟨hlt2, _⟩ := List.getElem?_eq_some.mp hl
    have hiff := hP (a + i) hlt2
    rw [hgetD (a + i) y hl] at hiff
    exact hiff.mpr (by omega)
  conv_lhs => rw [hsplit]
  rw [List.filter_append, List.filter_append, hA, hB, hC]
  simp only [List.nil_append, List.append_nil, List.length_take,
    List.length_drop]
  omega

/-- Floor position of the first quartile edge. -/
lemma floor_q1 (N : ℕ) (hN : 1 ≤ N) :
    ⌊((N : ℚ) - 1) * (1 / 4)⌋₊ = (N - 1) / 4 := by
  have h := floor_quarter_pos N 1 hN
  simpa using h

/-- Floor position of the median edge. -/
lemma floor_q2 (N : ℕ) (hN : 1 ≤ N) :
    ⌊((N : ℚ) - 1) * (2 / 4)⌋₊ = 2 * (N - 1) / 4 := by
  have h := floor_quarter_pos N 2 hN
  simpa using h

/-- Floor position of the third quartile edge. -/
lemma floor_q3 (N : ℕ) (hN : 1 ≤ N) :
    ⌊((N : ℚ) - 1) * (3 / 4)⌋₊ = 3 * (N - 1) / 4 := by
  have h := floor_quarter_pos N 3 hN
  simpa using h

/-- C7: for a population of `N ≥ 2` distinct scores, `pd.qcut(..., q=4)`
assigns every score one of the 4 ordered segments, each segment receives
between `⌊N/4⌋` and `⌈N/4⌉` entities (`N/4` up to ±1 for remainders), and the
segment index is monotone in the score — a smaller score never gets a larger
segment; the labels Low/Medium/High/Premium are attached in bin order. -/
theorem qcut_segment_sizes (scores : List ℚ) (hnd : scores.Nodup)
    (hN : 2 ≤ scores.length) :
    (∀ k, k < 4 →
      scores.length / 4
          ≤ (scores.filter (fun x => decide (qcutBin scores x = k))).length
        ∧ (scores.filter (fun x => decide (qcutBin scores x = k))).length
          ≤ (scores.length + 3) / 4)
    ∧ (∀ x y : ℚ, x < y → qcutBin scores x ≤ qcutBin scores y)
    ∧ (∀ x : ℚ, qcutBin scores x < 4)
    ∧ (∀ x : ℚ, spendingSegment scores x
        = spendingLabels.getD (qcutBin scores x) "") := by
  set N := scores.length with hNdef
  set sorted := scores.mergeSort (fun a b => a ≤ b) with hsorteddef
  have hperm : List.Perm sorted scores := List.mergeSort_perm scores _
  have hslen : sorted.length = N := hperm.length_eq
  have hsortednd : sorted.Nodup := hperm.nodup_iff.mpr hnd
  have hsorted : sorted.Sorted (· ≤ ·) := List.sorted_mergeSort' scores
  have hstrict : sorted.Pairwise (· < ·) :=
    (hsorted.and hsortednd).imp (fun h => lt_of_le_of_ne h.1 h.2)
  have h1 : ∀ r, r < N →
      (interpQuantile sorted (1 / 4) < sorted.getD r 0 ↔ (N - 1) / 4 + 1 ≤ r) := by
    intro r hr
    have h := interpQuantile_lt_getD_iff sorted hstrict (1 / 4) (by norm_num)
      (by rw [hslen, floor_q1 N (by omega)]; omega) r (by rw [hslen]; exact hr)
    rw [hslen, floor_q1 N (by omega)] at h
    exact h
  have h2 : ∀ r, r < N →
      (interpQuantile sorted (2 / 4) < sorted.getD r 0
        ↔ 2 * (N - 1) / 4 + 1 ≤ r) := by
    intro r hr
    have h := interpQuantile_lt_getD_iff sorted hstrict (2 / 4) (by norm_num)
      (by rw [hslen, floor_q2 N (by omega)]; omega) r (by rw [hslen]; exact hr)
    rw [hslen, floor_q2 N (by omega)] at h
    exact h
  have h3 : ∀ r, r < N →
      (interpQuantile sorted (3 / 4) < sorted.getD r 0
        ↔ 3 * (N - 1) / 4 + 1 ≤ r) := by
    intro r hr
    have h := interpQuantile_lt_getD_iff sorted hstrict (3 / 4) (by norm_num)
      (by rw [hslen, floor_q3 N (by omega)]; omega) r (by rw [hslen]; exact hr)
    rw [hslen, floor_q3 N (by omega)] at h
    exact h
  have hbinrank : ∀ i, i < N → ∀ k,
      (qcutBin scores (sorted.getD i 0) = k
        ↔ ((if (N - 1) / 4 + 1 ≤ i then 1 else 0)
            + (if 2 * (N - 1) / 4 + 1 ≤ i then 1 else 0)
            + (if 3 * (N - 1) / 4 + 1 ≤ i then 1 else 0) = k)) := by
    intro i hi k
    unfold qcutBin
    rw [← hsorteddef]
    simp only [h1 i hi, h2 i hi, h3 i hi]
  have htrans : ∀ p : ℚ → Bool,
      (scores.filter p).length = (sorted.filter p).length :=
    fun p => ((hperm.filter p).length_eq).symm
  refine ⟨?_, ?_, ?_, fun x => rfl⟩
  · intro k hk
    have hwin : ∀ a b : ℕ, a ≤ b → b ≤ N →
        (∀ i, i < N → (qcutBin scores (sorted.getD i 0) = k ↔ (a ≤ i ∧ i < b))) →
        (scores.filter (fun x => decide (qcutBin scores x = k))).length = b - a := by
      intro a b hab hbN hiff
      rw [htrans]
      apply length_filter_rank_window sorted _ a b hab (by rw [hslen]; exact hbN)
      intro i hi
      rw [hslen] at hi
      rw [decide_eq_true_eq]
      exact hiff i hi
    interval_cases k
    · have hsz := hwin (0) ((N - 1) / 4 + 1) (by omega) (by omega)
        (fun i hi => by
          rw [hbinrank i hi 0]
          constructor
          · intro h
            split_ifs at h <;> omega
          · intro h
            split_ifs <;> omega)
      rw [hsz]
      obtain ⟨t, u, hu, hm⟩ : ∃ t u, u < 4 ∧ N - 1 = 4 * t + u :=
        ⟨(N - 1) / 4, (N - 1) % 4, Nat.mod_lt _ (by norm_num),
          ((Nat.div_add_mod (N - 1) 4).symm)⟩
      interval_cases u <;> omega
    · have hsz := hwin ((N - 1) / 4 + 1) (2 * (N - 1) / 4 + 1) (by omega) (by omega)
        (fun i hi => by
          rw [hbinrank i hi 1]
          constructor
          · intro h
            split_ifs at h <;> omega
          · intro h
            split_ifs <;> omega)
      rw [hsz]
      obtain ⟨t, u, hu, hm⟩ : ∃ t u, u < 4 ∧ N - 1 = 4 * t + u :=
        ⟨(N - 1) / 4, (N - 1) % 4, Nat.mod_lt _ (by norm_num),
          ((Nat.div_add_mod (N - 1) 4).symm)⟩
      interval_cases u <;> omega
    · have hsz := hwin (2 * (N - 1) / 4 + 1) (3 * (N - 1) / 4 + 1) (by omega) (by omega)
        (fun i hi => by
          rw [hbinrank i hi 2]
          constructor
          · intro h
            split_ifs at h <;> omega
          · intro h
            split_ifs <;> omega)
      rw [hsz]
      obtain ⟨t, u, hu, hm⟩ : ∃ t u, u < 4 ∧ N - 1 = 4 * t + u :=
        ⟨(N - 1) / 4, (N - 1) % 4, Nat.mod_lt _ (by norm_num),
          ((Nat.div_add_mod (N - 1) 4).symm)⟩
      interval_cases u <;> omega
    · have hsz := hwin (3 * (N - 1) / 4 + 1) (N) (by omega) (by omega)
        (fun i hi => by
          rw [hbinrank i hi 3]
          constructor
          · intro h
            split_ifs at h <;> omega
          · intro h
            split_ifs <;> omega)
      rw [hsz]
      obtain ⟨t, u, hu, hm⟩ : ∃ t u, u < 4 ∧ N - 1 = 4 * t + u :=
        ⟨(N - 1) / 4, (N - 1) % 4, Nat.mod_lt _ (by norm_num),
          ((Nat.div_add_mod (N - 1) 4).symm)⟩
      interval_cases u <;> omega
  · intro x y hxy
    unfold qcutBin
    have hmono : ∀ q : ℚ,
        (if q < x then (1 : ℕ) else 0) ≤ (if q < y then 1 else 0) := by
      intro q
      split_ifs with ha hb
      · exact le_refl _
      · exact absurd (lt_trans ha hxy) hb
      · exact Nat.zero_le _
      · exact le_refl _
    exact add_le_add (add_le_add (hmono _) (hmono _)) (hmono _)
  · intro x
    unfold qcutBin
    split_ifs <;> norm_num

/-- C7 witness: the 5 distinct scores `[10, 20, 30, 40, 50]` are split into 4
monotone quartile segments of sizes between `⌊5/4⌋ = 1` and `⌈5/4⌉ = 2`. -/
theorem qcut_segment_sizes_witness :
    ([10, 20, 30, 40, 50] : List ℚ).Nodup
    ∧ 2 ≤ ([10, 20, 30, 40, 50] : List ℚ).length
    ∧ (∀ x y : ℚ, x < y →
        qcutBin [10, 20, 30, 40, 50] x ≤ qcutBin [10, 20, 30, 40, 50] y)
    ∧ (([10, 20, 30, 40, 50] : List ℚ).length / 4
        ≤ (([10, 20, 30, 40, 50] : List ℚ).filter
            (fun x => decide (qcutBin [10, 20, 30, 40, 50] x = 0))).length
      ∧ (([10, 20, 30, 40, 50] : List ℚ).filter
            (fun x => decide (qcutBin [10, 20, 30, 40, 50] x = 0))).length
        ≤ (([10, 20, 30, 40, 50] : List ℚ).length + 3) / 4) :=
  ⟨by norm_num, by norm_num,
   (qcut_segment_sizes [10, 20, 30, 40, 50] (by norm_num) (by norm_num)).2.1,
   (qcut_segment_sizes [10, 20, 30, 40, 50] (by norm_num) (by norm_num)).1 0
     (by norm_num)⟩
